import Mathlib

/-!
# gotweet-server: credential resolution, persistence and the tweet relay

A shallow embedding of `gotweet-server.go`.

* Go strings and byte slices are byte sequences; a byte is a natural number
  below 256 (`GoString`).  Literal ASCII text of the program is written with
  `lit`.
* The process environment is a function from variable names to values
  (`os.Getenv` returns the empty string for an unset variable).
* The file system is a table of names over a table of inodes: names can be
  hard links to one inode or symbolic links, and files carry permission bits.
  The outcome of each system call that can fail for reasons outside the
  program (writing, renaming) is chosen by the world the program runs in.
* `encoding/json`, `unicode/utf8`, `path/filepath`, `os` and `io/ioutil` are
  modelled after their documented behaviour for the calls the program makes.
-/

set_option linter.dupNamespace false

namespace GoTweet

/-! ## Strings -/

/-- A Go string or byte slice: a sequence of bytes. -/
abbrev GoString := List Nat

/-- The bytes of an ASCII literal of the program text. -/
def lit (s : String) : GoString := s.data.map Char.toNat

/-! ## unicode/utf8 -/

namespace utf8

/-- The replacement rune U+FFFD. -/
def RuneError : Nat := 0xFFFD

/-- A continuation byte, 0x80..0xBF. -/
def isCont (b : Nat) : Bool := decide (0x80 ≤ b) && decide (b ≤ 0xBF)

/-- Lowest second byte accepted after the first byte `p0` (the accept-range
table of the Go runtime). -/
def loSecond (p0 : Nat) : Nat :=
  if p0 = 0xE0 then 0xA0 else if p0 = 0xF0 then 0x90 else 0x80

/-- Highest second byte accepted after the first byte `p0`. -/
def hiSecond (p0 : Nat) : Nat :=
  if p0 = 0xED then 0x9F else if p0 = 0xF4 then 0x8F else 0xBF

/-- The second byte is in the range its first byte accepts. -/
def okSecond (p0 p1 : Nat) : Bool := decide (loSecond p0 ≤ p1) && decide (p1 ≤ hiSecond p0)

/-- Go `utf8.DecodeRune`: the first rune of `p` and the number of bytes it
occupies; `(RuneError, 0)` for empty input and `(RuneError, 1)` for an
encoding that is invalid or cut short. -/
def DecodeRune (p : GoString) : Nat × Nat :=
  match p with
  | [] => (RuneError, 0)
  | p0 :: rest =>
    if p0 < 0x80 then (p0, 1)
    else if 0xC2 ≤ p0 ∧ p0 ≤ 0xDF then
      match rest with
      | p1 :: _ =>
        if isCont p1 then ((p0 - 0xC0) * 64 + (p1 - 0x80), 2) else (RuneError, 1)
      | [] => (RuneError, 1)
    else if 0xE0 ≤ p0 ∧ p0 ≤ 0xEF then
      match rest with
      | p1 :: p2 :: _ =>
        if okSecond p0 p1 && isCont p2 then
          ((p0 - 0xE0) * 4096 + (p1 - 0x80) * 64 + (p2 - 0x80), 3)
        else (RuneError, 1)
      | _ => (RuneError, 1)
    else if 0xF0 ≤ p0 ∧ p0 ≤ 0xF4 then
      match rest with
      | p1 :: p2 :: p3 :: _ =>
        if okSecond p0 p1 && isCont p2 && isCont p3 then
          ((p0 - 0xF0) * 262144 + (p1 - 0x80) * 4096 + (p2 - 0x80) * 64 + (p3 - 0x80), 4)
        else (RuneError, 1)
      | _ => (RuneError, 1)
    else (RuneError, 1)

/-- Go `utf8.EncodeRune`: the UTF-8 encoding of a rune; surrogates and values
above U+10FFFF are encoded as U+FFFD. -/
def EncodeRune (r : Nat) : GoString :=
  if r ≤ 0x7F then [r]
  else if r ≤ 0x7FF then [0xC0 + r / 64, 0x80 + r % 64]
  else if 0x10FFFF < r ∨ (0xD800 ≤ r ∧ r ≤ 0xDFFF) then [0xEF, 0xBF, 0xBD]
  else if r ≤ 0xFFFF then [0xE0 + r / 4096, 0x80 + r / 64 % 64, 0x80 + r % 64]
  else [0xF0 + r / 262144, 0x80 + r / 4096 % 64, 0x80 + r / 64 % 64, 0x80 + r % 64]

end utf8

/-! ## The credential bundle (lines 120-134) -/

/-- The `tokens` struct. -/
structure tokens where
  ConsumerKey : GoString
  ConsumerSecret : GoString
  AccessToken : GoString
  AccessTokenSecret : GoString
  deriving DecidableEq, Repr

/-- `tokens.isValid`: true if all necessary keys are populated. -/
def tokens.isValid (t : tokens) : Bool :=
  !(t.ConsumerKey == [] || t.ConsumerSecret == [] ||
    t.AccessToken == [] || t.AccessTokenSecret == [])

/-- `getTokensFromEnvironment`: the bundle read from the four environment
variables; `getenv` is `os.Getenv`. -/
def getTokensFromEnvironment (getenv : String → GoString) : Option tokens :=
  some {
    ConsumerKey := getenv "TWITTER_CONSUMER_KEY",
    ConsumerSecret := getenv "TWITTER_CONSUMER_SECRET",
    AccessToken := getenv "TWITTER_ACCESS_TOKEN",
    AccessTokenSecret := getenv "TWITTER_ACCESS_TOKEN_SECRET" }

/-! ## Errors -/

/-- A `syscall.Errno`. -/
abbrev Errno := Nat

/-- The errno of "no such file or directory". -/
def ENOENT : Errno := 2

/-- The errors of `encoding/json` that `Unmarshal` reports. -/
inductive JsonError
  | SyntaxError
  | UnmarshalTypeError (Value : String)
  deriving DecidableEq, Repr

/-- The error values the program can see. -/
inductive Error
  | errorString (s : String)
  | PathError (Op : String) (Path : GoString) (Err : Errno)
  | LinkError (Op : String) (Old : GoString) (New : GoString) (Err : Errno)
  | json (e : JsonError)
  deriving DecidableEq, Repr

/-- Go `fmt.Errorf` applied to a format without verbs: an error whose text is
the format. -/
def fmt.Errorf (format : String) : Error := Error.errorString format

/-- The message tables of the libraries: the text of each errno and of each
JSON error. -/
structure Texts where
  errno : Errno → GoString
  json : JsonError → GoString

/-- The method `Error()` of each error value. -/
def Error.Error (tx : Texts) : Error → GoString
  | .errorString s => lit s
  | .PathError op path e => lit op ++ lit " " ++ path ++ lit ": " ++ tx.errno e
  | .LinkError op old new e =>
    lit op ++ lit " " ++ old ++ lit " " ++ new ++ lit ": " ++ tx.errno e
  | .json e => tx.json e

/-- Go `os.IsNotExist`: the error, unwrapped from a `PathError` or
`LinkError`, is the errno ENOENT. -/
def os.IsNotExist : Error → Bool
  | .PathError _ _ e => e == ENOENT
  | .LinkError _ _ _ e => e == ENOENT
  | _ => false

/-- The outcome of running a function that may dereference a nil pointer. -/
inductive Exec (α : Type)
  | done (a : α)
  | panic (msg : String)
  deriving DecidableEq, Repr

/-! ## The world: environment and file system -/

/-- The errno of "permission denied". -/
def EACCES : Errno := 13

/-- The errno of "too many levels of symbolic links". -/
def ELOOP : Errno := 40

/-- What a directory holds under a path: nothing, something that cannot be
looked up (a directory on the way is missing or not searchable, the errno
says which), a hard link to an inode, or a symbolic link to another path. -/
inductive Name
  | absent
  | fails (e : Errno)
  | file (ino : Nat)
  | symlink (target : GoString)
  deriving DecidableEq, Repr

/-- The class of the process with respect to a file. -/
inductive Who
  | owner
  | group
  | other
  deriving DecidableEq, Repr

/-- A file: its content, its permission bits, the class of the process with
respect to it, and the I/O error, if any, that reading it meets. -/
structure Inode where
  content : GoString
  mode : Nat
  who : Who
  readErr : Option Errno
  deriving DecidableEq, Repr

/-- Where a path leads after its symbolic links are followed: to an inode, to
a name that holds nothing, or to an error. -/
inductive Resolved
  | inode (ino : Nat)
  | missing (name : GoString)
  | error (e : Errno)
  deriving DecidableEq, Repr

/-- Follow symbolic links from a path; the fuel is the number of names that
may be looked up before the walk is given up with ELOOP. -/
def resolve (names : GoString → Name) : Nat → GoString → Resolved
  | 0, _ => .error ELOOP
  | fuel + 1, p =>
    match names p with
    | .absent => .missing p
    | .fails e => .error e
    | .file i => .inode i
    | .symlink t => resolve names fuel t

/-- The kernel follows at most 40 symbolic links, so at most 41 names are
looked up. -/
def maxLookups : Nat := 41

/-- The world the process runs in.  Several names may hold the same inode
(hard links), and names may be symbolic links.  Inodes below `next` are in
use, and every hard link leads to one of them (`wf`).  `umask` and `root` are
the file mode creation mask and whether the process is the superuser.
`writeFault path data` is the failure, if any, of writing `data` to `path`,
with the content the failed write leaves in the file, or `none` if it fails
before the file is touched; `renameFault old new` is the failure, if any, of
the rename. -/
structure World where
  env : String → GoString
  names : GoString → Name
  inodes : Nat → Inode
  next : Nat
  umask : Nat
  root : Bool
  writeFault : GoString → GoString → Option (Error × Option GoString)
  renameFault : GoString → GoString → Option Errno
  wf : ∀ p i, names p = .file i → i < next

/-- Where a path leads. -/
def World.target (w : World) (path : GoString) : Resolved :=
  resolve w.names maxLookups path

/-- The process may open the file for reading: it is the superuser, or the
read bit of its class is set in the mode. -/
def World.mayRead (w : World) (f : Inode) : Bool :=
  w.root ||
    match f.who with
    | .owner => f.mode / 0o400 % 2 == 1
    | .group => f.mode / 0o40 % 2 == 1
    | .other => f.mode / 0o4 % 2 == 1

/-- What a reader finds at a path. -/
inductive Entry
  | absent
  | openFails (e : Errno)
  | readFails (e : Errno)
  | regular (content : GoString)
  deriving DecidableEq, Repr

/-- What a reader finds at a path: nothing; an error on opening it (the
lookup fails, the links loop, or the mode denies reading); an error on reading
it; or its content. -/
def World.fs (w : World) (path : GoString) : Entry :=
  match w.target path with
  | .missing _ => .absent
  | .error e => .openFails e
  | .inode i =>
    if w.mayRead (w.inodes i) then
      match (w.inodes i).readErr with
      | some e => .readFails e
      | none => .regular (w.inodes i).content
    else .openFails EACCES

/-- Two paths lead to the same file: to the same inode, or to the same name
that holds nothing (where a write through either would create the file). -/
def World.sameFile (w : World) (p q : GoString) : Bool :=
  match w.target p, w.target q with
  | .inode i, .inode j => i == j
  | .missing a, .missing b => a == b
  | _, _ => false

/-- An open file: its name and what reading it to the end yields. -/
structure File where
  name : GoString
  data : GoString
  readErr : Option Errno
  deriving DecidableEq, Repr

/-- Go `os.Getenv`. -/
def os.Getenv (w : World) (key : String) : GoString := w.env key

/-- Go `os.Open`. -/
def os.Open (w : World) (name : GoString) : Option File × Option Error :=
  match w.fs name with
  | .absent => (none, some (.PathError "open" name ENOENT))
  | .openFails e => (none, some (.PathError "open" name e))
  | .readFails e => (some ⟨name, [], some e⟩, none)
  | .regular content => (some ⟨name, content, none⟩, none)

/-- Go `ioutil.ReadAll` on an open file; reading through a nil `*os.File` is
the error `os.ErrInvalid`. -/
def ioutil.ReadAll (file : Option File) : GoString × Option Error :=
  match file with
  | none => ([], some (.errorString "invalid argument"))
  | some f =>
    match f.readErr with
    | some e => (f.data, some (.PathError "read" f.name e))
    | none => (f.data, none)

/-- Go `os.TempDir` on Unix. -/
def os.TempDir (w : World) : GoString :=
  let dir := os.Getenv w "TMPDIR"
  if dir = [] then lit "/tmp" else dir

/-! ## path/filepath (Unix) -/

namespace filepath

/-- The elements of a path between its slashes. -/
def splitSlash : GoString → List GoString
  | [] => [[]]
  | b :: rest =>
    if b = 0x2F then [] :: splitSlash rest
    else
      match splitSlash rest with
      | [] => [[b]]
      | c :: cs => (b :: c) :: cs

/-- The elements joined by single slashes. -/
def joinSlash : List GoString → GoString
  | [] => []
  | [c] => c
  | c :: d :: cs => c ++ 0x2F :: joinSlash (d :: cs)

/-- One element of the path processed by `Clean`: empty and `.` elements are
dropped, `..` removes the element before it (at the root it is dropped, at the
start of a relative path it is kept), any other element is appended.  The
elements kept so far are in `out`, last first. -/
def cleanStep (rooted : Bool) (out : List GoString) (c : GoString) : List GoString :=
  if c = [] ∨ c = lit "." then out
  else if c = lit ".." then
    match out with
    | top :: below =>
      if top = lit ".." then (if rooted then out else lit ".." :: out) else below
    | [] => if rooted then [] else [lit ".."]
  else c :: out

/-- Go `filepath.Clean`. -/
def Clean (path : GoString) : GoString :=
  match path with
  | [] => lit "."
  | b :: _ =>
    let rooted := decide (b = 0x2F)
    let out := ((splitSlash path).foldl (cleanStep rooted) []).reverse
    if rooted then 0x2F :: joinSlash out
    else if out = [] then lit "." else joinSlash out

/-- Go `filepath.Join` of two elements: empty elements are ignored and the
result is cleaned; the join of empty elements is empty. -/
def Join (a b : GoString) : GoString :=
  if a ≠ [] then Clean (a ++ 0x2F :: b)
  else if b ≠ [] then Clean b
  else []

end filepath

/-- The constant `settingsFile`. -/
def settingsFile : GoString := lit ".gotweet-server"

/-- The initial value of the package variable `gotweetPath` (line 71). -/
def gotweetPath (w : World) : GoString :=
  filepath.Join (os.Getenv w "HOME") settingsFile

/-! ## encoding/json: Marshal -/

namespace json

/-- The lower-case hexadecimal digit of a value below 16. -/
def hexDigit (n : Nat) : Nat := if n < 10 then 0x30 + n else 0x61 + (n - 10)

/-- The ASCII bytes that `Marshal` copies unescaped: everything from the space
on except the double quote, the backslash and the HTML characters
`<`, `>`, `&`. -/
def htmlSafe (b : Nat) : Bool :=
  decide (0x20 ≤ b) && !(b == 0x22 || b == 0x5C || b == 0x3C || b == 0x3E || b == 0x26)

/-- The escape sequence of an ASCII byte that is not copied. -/
def escapeByte (b : Nat) : GoString :=
  if b = 0x5C ∨ b = 0x22 then [0x5C, b]
  else if b = 0x0A then [0x5C, 0x6E]
  else if b = 0x0D then [0x5C, 0x72]
  else if b = 0x09 then [0x5C, 0x74]
  else [0x5C, 0x75, 0x30, 0x30, hexDigit (b / 16), hexDigit (b % 16)]

/-- The body of the JSON string that `Marshal` writes for a Go string: ASCII
is copied or escaped, a validly encoded rune is copied (U+2028 and U+2029 are
escaped), and every byte that is not part of a valid encoding becomes the
escape of U+FFFD. -/
def encodeString : GoString → GoString
  | [] => []
  | b :: rest =>
    if b < 0x80 then
      if htmlSafe b then b :: encodeString rest else escapeByte b ++ encodeString rest
    else
      match (utf8.DecodeRune (b :: rest)).2, rest with
      | 2, b1 :: r => b :: b1 :: encodeString r
      | 3, b1 :: b2 :: r =>
        let c := (utf8.DecodeRune (b :: rest)).1
        if c = 0x2028 ∨ c = 0x2029 then
          [0x5C, 0x75, 0x32, 0x30, 0x32, hexDigit (c % 16)] ++ encodeString r
        else b :: b1 :: b2 :: encodeString r
      | 4, b1 :: b2 :: b3 :: r => b :: b1 :: b2 :: b3 :: encodeString r
      | _, r => [0x5C, 0x75, 0x66, 0x66, 0x66, 0x64] ++ encodeString r

/-- A Go string as a JSON string. -/
def quote (s : GoString) : GoString := 0x22 :: encodeString s ++ [0x22]

/-- One member of the object: the field name of the struct tag, a colon, the
value. -/
def member (name : String) (value : GoString) : GoString :=
  0x22 :: lit name ++ [0x22, 0x3A] ++ quote value

/-- Go `json.Marshal` of a `tokens` value: the four fields in declaration order
under the names of their struct tags.  It has no error case for this type. -/
def Marshal (t : tokens) : GoString × Option Error :=
  (0x7B :: member "consumer_key" t.ConsumerKey ++
    0x2C :: member "consumer_secret" t.ConsumerSecret ++
    0x2C :: member "access_token" t.AccessToken ++
    0x2C :: member "access_token_secret" t.AccessTokenSecret ++ [0x7D], none)

/-! ## encoding/json: Unmarshal -/

/-- A parsed JSON value.  The numeric value of a number is not kept: no field
of `tokens` can hold one. -/
inductive Value
  | null
  | bool (b : Bool)
  | number
  | string (s : GoString)
  | array (elems : List Value)
  | object (members : List (GoString × Value))

/-- JSON white space: space, tab, carriage return, line feed. -/
def isSpace (c : Nat) : Bool := c == 0x20 || c == 0x09 || c == 0x0D || c == 0x0A

/-- Drop leading white space. -/
def skipSpace : GoString → GoString
  | [] => []
  | c :: rest => if isSpace c then skipSpace rest else c :: rest

/-- The value of a hexadecimal digit of either case. -/
def hexVal (c : Nat) : Option Nat :=
  if 0x30 ≤ c ∧ c ≤ 0x39 then some (c - 0x30)
  else if 0x61 ≤ c ∧ c ≤ 0x66 then some (c - 0x61 + 10)
  else if 0x41 ≤ c ∧ c ≤ 0x46 then some (c - 0x41 + 10)
  else none

/-- The rune of the four hexadecimal digits of a `\u` escape. -/
def getu4 (h1 h2 h3 h4 : Nat) : Option Nat :=
  match hexVal h1, hexVal h2, hexVal h3, hexVal h4 with
  | some a, some b, some c, some d => some (a * 4096 + b * 256 + c * 16 + d)
  | _, _, _, _ => none

/-- Go `utf16.IsSurrogate`. -/
def IsSurrogate (r : Nat) : Bool := decide (0xD800 ≤ r) && decide (r < 0xE000)

/-- Go `utf16.DecodeRune`: the rune of a surrogate pair, U+FFFD if the two
values are not a high surrogate followed by a low one. -/
def utf16DecodeRune (r1 r2 : Nat) : Nat :=
  if 0xD800 ≤ r1 ∧ r1 < 0xDC00 ∧ 0xDC00 ≤ r2 ∧ r2 < 0xE000 then
    (r1 - 0xD800) * 1024 + (r2 - 0xDC00) + 0x10000
  else utf8.RuneError

/-- The byte a two-character escape stands for. -/
def simpleEscape (e : Nat) : Option Nat :=
  if e = 0x22 ∨ e = 0x5C ∨ e = 0x2F then some e
  else if e = 0x62 then some 0x08
  else if e = 0x66 then some 0x0C
  else if e = 0x6E then some 0x0A
  else if e = 0x72 then some 0x0D
  else if e = 0x74 then some 0x09
  else none

/-- Prepend bytes to the string of a scan result. -/
def emit (bs : GoString) (r : Option (GoString × GoString)) : Option (GoString × GoString) :=
  match r with
  | some (s, rest) => some (bs ++ s, rest)
  | none => none

/-- After the escape of a surrogate `rr`: the rune of the pair it forms with a
`\u` escape that follows at once, if the two are a valid pair. -/
def surrogatePair (rr : Nat) (rest : GoString) : Option Nat :=
  match rest with
  | b :: u :: g1 :: g2 :: g3 :: g4 :: _ =>
    if b = 0x5C ∧ u = 0x75 then
      match getu4 g1 g2 g3 g4 with
      | some rr1 =>
        if utf16DecodeRune rr rr1 ≠ utf8.RuneError then some (utf16DecodeRune rr rr1) else none
      | none => none
    else none
  | _ => none

/-- One step of reading a string literal: the literal ends, the input is
malformed, or some bytes are appended to the string while a number of input
bytes is consumed. -/
inductive Step
  | close
  | error
  | emit (bytes : GoString) (consumed : Nat)
  deriving DecidableEq, Repr

/-- The step at the head of the input, inside a string literal.  Control
characters and malformed escapes are syntax errors; escapes are decoded, a lone
surrogate escape and every byte that is not valid UTF-8 become U+FFFD. -/
def scanStep : GoString → Step
  | [] => .error
  | c :: rest =>
    if c = 0x22 then .close
    else if c = 0x5C then
      match rest with
      | [] => .error
      | e :: rest1 =>
        if e = 0x75 then
          match rest1 with
          | h1 :: h2 :: h3 :: h4 :: rest2 =>
            match getu4 h1 h2 h3 h4 with
            | none => .error
            | some rr =>
              if IsSurrogate rr then
                match surrogatePair rr rest2 with
                | some dec => .emit (utf8.EncodeRune dec) 12
                | none => .emit (utf8.EncodeRune utf8.RuneError) 6
              else .emit (utf8.EncodeRune rr) 6
          | _ => .error
        else
          match simpleEscape e with
          | some b => .emit [b] 2
          | none => .error
    else if c < 0x20 then .error
    else if c < 0x80 then .emit [c] 1
    else .emit (utf8.EncodeRune (utf8.DecodeRune (c :: rest)).1) (utf8.DecodeRune (c :: rest)).2

/-- Read a string literal from the input after skipping `skip` bytes that a
step has already consumed. -/
def scanFrom : Nat → GoString → Option (GoString × GoString)
  | _, [] => none
  | skip + 1, _ :: rest => scanFrom skip rest
  | 0, c :: rest =>
    match scanStep (c :: rest) with
    | .close => some ([], rest)
    | .error => none
    | .emit bytes consumed => emit bytes (scanFrom (consumed - 1) rest)

/-- Read a JSON string literal whose opening quote has been consumed: the Go
string it denotes and the input after its closing quote, `none` on a syntax
error. -/
def scanString (s : GoString) : Option (GoString × GoString) := scanFrom 0 s

/-- A decimal digit. -/
def isDigit (c : Nat) : Bool := decide (0x30 ≤ c) && decide (c ≤ 0x39)

/-- Drop leading digits. -/
def skipDigits : GoString → GoString
  | [] => []
  | c :: rest => if isDigit c then skipDigits rest else c :: rest

/-- The optional exponent of a number: the input after it, or a syntax error
if `e` is not followed by an optionally signed digit. -/
def scanExponent (s : GoString) : Option GoString :=
  match s with
  | e :: rest =>
    if e = 0x65 ∨ e = 0x45 then
      match rest with
      | sign :: d :: rest1 =>
        if sign = 0x2B ∨ sign = 0x2D then
          if isDigit d then some (skipDigits rest1) else none
        else if isDigit sign then some (skipDigits (d :: rest1)) else none
      | [d] => if isDigit d then some [] else none
      | [] => none
    else some s
  | [] => some s

/-- The optional fraction and exponent of a number. -/
def scanFraction (s : GoString) : Option GoString :=
  match s with
  | dot :: rest =>
    if dot = 0x2E then
      match rest with
      | d :: rest1 => if isDigit d then scanExponent (skipDigits rest1) else none
      | [] => none
    else scanExponent s
  | [] => some s

/-- Read a JSON number: an optional minus, `0` or a digit sequence without
leading zero, an optional fraction, an optional exponent. -/
def scanNumber (s : GoString) : Option GoString :=
  let s1 := match s with
    | c :: rest => if c = 0x2D then rest else s
    | [] => s
  match s1 with
  | d :: rest =>
    if d = 0x30 then scanFraction rest
    else if isDigit d then scanFraction (skipDigits rest)
    else none
  | [] => none

/-- The limit of the scanner on nested arrays and objects. -/
def maxNestingDepth : Nat := 10000

/-- What the parser is reading: a value, the rest of an array after its
opening bracket or a comma, the rest of an object after its opening brace or a
comma. -/
inductive Mode
  | value
  | elems (acc : List Value)
  | members (acc : List (GoString × Value))

/-- The parser: the value read and the input after it, `none` on a syntax
error.  `depth` is the number of arrays and objects that are open. -/
def parse : Nat → Nat → Mode → GoString → Option (Value × GoString)
  | 0, _, _, _ => none
  | fuel + 1, depth, .value, s =>
    match skipSpace s with
    | [] => none
    | c :: r =>
      if c = 0x7B then
        if maxNestingDepth ≤ depth then none
        else
          match skipSpace r with
          | [] => none
          | d :: r1 =>
            if d = 0x7D then some (.object [], r1)
            else parse fuel (depth + 1) (.members []) (d :: r1)
      else if c = 0x5B then
        if maxNestingDepth ≤ depth then none
        else
          match skipSpace r with
          | [] => none
          | d :: r1 =>
            if d = 0x5D then some (.array [], r1)
            else parse fuel (depth + 1) (.elems []) (d :: r1)
      else if c = 0x22 then
        match scanString r with
        | some (str, r1) => some (.string str, r1)
        | none => none
      else if c = 0x74 then
        match r with
        | 0x72 :: 0x75 :: 0x65 :: r1 => some (.bool true, r1)
        | _ => none
      else if c = 0x66 then
        match r with
        | 0x61 :: 0x6C :: 0x73 :: 0x65 :: r1 => some (.bool false, r1)
        | _ => none
      else if c = 0x6E then
        match r with
        | 0x75 :: 0x6C :: 0x6C :: r1 => some (.null, r1)
        | _ => none
      else
        match scanNumber (c :: r) with
        | some r1 => some (.number, r1)
        | none => none
  | fuel + 1, depth, .elems acc, s =>
    match parse fuel depth .value s with
    | none => none
    | some (v, r) =>
      match skipSpace r with
      | [] => none
      | c :: r1 =>
        if c = 0x2C then parse fuel depth (.elems (acc ++ [v])) r1
        else if c = 0x5D then some (.array (acc ++ [v]), r1)
        else none
  | fuel + 1, depth, .members acc, s =>
    match skipSpace s with
    | [] => none
    | q :: r =>
      if q = 0x22 then
        match scanString r with
        | none => none
        | some (key, r1) =>
          match skipSpace r1 with
          | [] => none
          | colon :: r2 =>
            if colon = 0x3A then
              match parse fuel depth .value r2 with
              | none => none
              | some (v, r3) =>
                match skipSpace r3 with
                | [] => none
                | c :: r4 =>
                  if c = 0x2C then parse fuel depth (.members (acc ++ [(key, v)])) r4
                  else if c = 0x7D then some (.object (acc ++ [(key, v)]), r4)
                  else none
            else none
      else none

/-- The whole input as one JSON value, surrounded by optional white space;
`none` on a syntax error.  The fuel is enough for every input
(`parseDocument_fuel_enough`). -/
def parseDocument (data : GoString) : Option Value :=
  match parse (2 * data.length + 2) 0 .value data with
  | some (v, rest) => if skipSpace rest = [] then some v else none
  | none => none

/-- The name under which `UnmarshalTypeError` reports a value. -/
def Value.kind : Value → String
  | .null => "null"
  | .bool _ => "bool"
  | .number => "number"
  | .string _ => "string"
  | .array _ => "array"
  | .object _ => "object"

/-- The four fields of `tokens`. -/
inductive Field
  | ConsumerKey
  | ConsumerSecret
  | AccessToken
  | AccessTokenSecret
  deriving DecidableEq, Repr

/-- The name of a field in its struct tag. -/
def Field.tag : Field → String
  | .ConsumerKey => "consumer_key"
  | .ConsumerSecret => "consumer_secret"
  | .AccessToken => "access_token"
  | .AccessTokenSecret => "access_token_secret"

/-- Upper case of an ASCII letter. -/
def upper (c : Nat) : Nat := if 0x61 ≤ c ∧ c ≤ 0x7A then c - 0x20 else c

/-- The case folding under which object keys are compared with field names:
ASCII letters fold to upper case, and the two runes outside ASCII whose simple
case folding is an ASCII letter, U+212A KELVIN SIGN and U+017F LONG S, fold to
`K` and `S`.  Every other byte is kept, so no other rune equals an ASCII
name. -/
def foldName : GoString → GoString
  | [] => []
  | c :: rest =>
    if c < 0x80 then upper c :: foldName rest
    else
      match c, rest with
      | 0xE2, 0x84 :: 0xAA :: r => 0x4B :: foldName r
      | 0xC5, 0xBF :: r => 0x53 :: foldName r
      | _, r => c :: foldName r

/-- The field an object key names: the field whose tag equals the key, else
the field whose tag equals it under case folding.  The four tags fold to
different names, so this is the one field whose folded tag is the folded
key. -/
def fieldOf (key : GoString) : Option Field :=
  [Field.ConsumerKey, Field.ConsumerSecret, Field.AccessToken, Field.AccessTokenSecret].find?
    (fun f => foldName (lit f.tag) == foldName key)

/-- Store a string in a field. -/
def setField (t : tokens) (f : Field) (s : GoString) : tokens :=
  match f with
  | .ConsumerKey => { t with ConsumerKey := s }
  | .ConsumerSecret => { t with ConsumerSecret := s }
  | .AccessToken => { t with AccessToken := s }
  | .AccessTokenSecret => { t with AccessTokenSecret := s }

/-- Decode one member of the object into the struct: a key that names no field
is skipped, a string is stored, `null` leaves the field as it is, and any
other value is recorded as a type error (the first one is kept) while decoding
goes on. -/
def decodeMember (st : tokens × Option Error) (kv : GoString × Value) : tokens × Option Error :=
  match fieldOf kv.1 with
  | none => st
  | some f =>
    match kv.2 with
    | .string s => (setField st.1 f s, st.2)
    | .null => st
    | v =>
      (st.1, match st.2 with
        | some e => some e
        | none => some (.json (.UnmarshalTypeError v.kind)))

/-- The zero value of `tokens`. -/
def zeroTokens : tokens := ⟨[], [], [], []⟩

/-- Go `json.Unmarshal(data, &t)` for `t` of type `*tokens`: the new value of the
pointer `t` and the error.  A syntax error leaves `t` alone; the literal
`null` sets the pointer to nil without error; an object fills the struct `t`
points to, allocating a zero struct when `t` is nil; any other value is a type
error. -/
def Unmarshal (data : GoString) (t : Option tokens) : Option tokens × Option Error :=
  match parseDocument data with
  | none => (t, some (.json .SyntaxError))
  | some .null => (none, none)
  | some (.object members) =>
    let r := members.foldl decodeMember (t.getD zeroTokens, none)
    (some r.1, r.2)
  | some v => (some (t.getD zeroTokens), some (.json (.UnmarshalTypeError v.kind)))

end json

/-! ## The program -/

/-- The call `t.isValid()` through a pointer `t`: the method has a value
receiver, so the pointer is dereferenced first and a nil pointer panics. -/
def isValidVia (t : Option tokens) : Exec Bool :=
  match t with
  | none => .panic "invalid memory address or nil pointer dereference"
  | some v => .done v.isValid

/-- The function `getTokens` (lines 77-107).  `path` is the value of the
package variable `gotweetPath` at the call.  The deferred `f.Close()` changes
nothing the function returns. -/
def getTokens (w : World) (path : GoString) : Exec (Option tokens × Option Error) :=
  match os.Open w path with
  | (_, some err) =>
    if os.IsNotExist err then
      let t := getTokensFromEnvironment (os.Getenv w)
      match isValidVia t with
      | .panic msg => .panic msg
      | .done valid =>
        if !valid then .done (none, some (fmt.Errorf "could not retrieve tokens from environment"))
        else .done (t, none)
    else .done (none, some err)
  | (f, none) =>
    match ioutil.ReadAll f with
    | (_, some err) => .done (none, some err)
    | (b, none) =>
      match json.Unmarshal b none with
      | (_, some err) => .done (none, some err)
      | (t, none) =>
        match isValidVia t with
        | .panic msg => .panic msg
        | .done valid =>
          if !valid then .done (none, some (fmt.Errorf "could not retrieve all tokens from disk"))
          else .done (t, none)

/-- The `url.Values` argument of `PostTweet`: nil or a map from keys to
lists of values. -/
abbrev Values := Option (List (GoString × List GoString))

/-- What a request handler does that is visible outside it. -/
inductive Event (Tweet : Type)
  | logBody (body : GoString)
  | PostTweet (status : GoString) (v : Values)
  | logTweet (tweet : Tweet)
  | bodyClose
  | logFatal (err : Error)

/-- How a handler ends: it returns to the server, or the process exits with a
status. -/
inductive Outcome
  | returned
  | exit (status : Nat)
  deriving DecidableEq, Repr

/-- The request: what `ioutil.ReadAll(req.Body)` yields. -/
structure Request where
  Body : GoString × Option Error

/-- The function `tweetPostHandler`.  `PostTweet` is the method of the client
in `twitterApi`.  `log.Fatal` logs and exits with status 1 without running
deferred calls; nothing is written to the response writer. -/
def tweetPostHandler {Tweet : Type} (PostTweet : GoString → Values → Tweet × Option Error)
    (req : Request) : List (Event Tweet) × Outcome :=
  match req.Body with
  | (_, some err) => ([.logFatal err], .exit 1)
  | (b, none) =>
    match PostTweet b none with
    | (_, some err) => ([.logBody b, .PostTweet b none, .logFatal err], .exit 1)
    | (tweet, none) =>
      ([.logBody b, .PostTweet b none, .logTweet tweet, .bodyClose], .returned)

/-- The calls of `PostTweet` among the events, in order. -/
def postCalls {Tweet : Type} : List (Event Tweet) → List (GoString × Values)
  | [] => []
  | .PostTweet status v :: rest => (status, v) :: postCalls rest
  | _ :: rest => postCalls rest

/-! ## Definitions used in the statements and proofs -/

/-- The bundle of the test `mockTokensFile`. -/
def mockTokens : tokens := ⟨lit "foo", lit "bar", lit "baz", lit "blah"⟩

/-- The bundle of the test `mockTokensFile_Corrupted`. -/
def corruptedTokens : tokens := ⟨[], lit "bar", lit "baz", []⟩

/-- The environment of the test `mockEnvironmentTokens`: the four variables
hold `foo`, every other variable is unset. -/
def mockEnv (key : String) : GoString :=
  if key = "TWITTER_CONSUMER_KEY" ∨ key = "TWITTER_CONSUMER_SECRET" ∨
      key = "TWITTER_ACCESS_TOKEN" ∨ key = "TWITTER_ACCESS_TOKEN_SECRET" then lit "foo"
  else []

/-- A world with an empty file system, no variable set, the usual umask 022, an
ordinary user and no faults. -/
def emptyWorld : World :=
  { env := fun _ => []
    names := fun _ => .absent
    inodes := fun _ => ⟨[], 0, .owner, none⟩
    next := 0
    umask := 0o022
    root := false
    writeFault := fun _ _ => none
    renameFault := fun _ _ => none
    wf := fun _ _ h => Name.noConfusion h }

/-- The path the tests assign to `gotweetPath`. -/
def mockPath : GoString := lit "/tmp/mockgotweetsettings"

/-- A world whose only file, at `mockPath`, has the given content and mode. -/
def modeWorld (env : String → GoString) (content : GoString) (mode : Nat) : World :=
  { env := env
    names := fun p => if p = mockPath then .file 0 else .absent
    inodes := fun _ => ⟨content, mode, .owner, none⟩
    next := 1
    umask := 0o022
    root := false
    writeFault := fun _ _ => none
    renameFault := fun _ _ => none
    wf := by
      intro p i h
      dsimp only at h
      by_cases hp : p = mockPath
      · rw [if_pos hp] at h; cases h; exact Nat.zero_lt_one
      · rw [if_neg hp] at h; cases h }

/-- A world whose only file, at `mockPath`, has the given content and mode
0644. -/
def fileWorld (env : String → GoString) (content : GoString) : World :=
  modeWorld env content 0o644

/-- The bundle `getTokensFromEnvironment` builds. -/
def envTokens (w : World) : tokens :=
  ⟨w.env "TWITTER_CONSUMER_KEY", w.env "TWITTER_CONSUMER_SECRET",
    w.env "TWITTER_ACCESS_TOKEN", w.env "TWITTER_ACCESS_TOKEN_SECRET"⟩

/-- A world without files whose four variables hold four different values. -/
def distinctEnvWorld : World :=
  { emptyWorld with
    env := fun key =>
      if key = "TWITTER_CONSUMER_KEY" then lit "k"
      else if key = "TWITTER_CONSUMER_SECRET" then lit "s"
      else if key = "TWITTER_ACCESS_TOKEN" then lit "a"
      else if key = "TWITTER_ACCESS_TOKEN_SECRET" then lit "as"
      else [] }

/-- A world in which the file at `mockPath` is write-only (mode 0200), so that
opening it for reading is denied (EACCES), although all four variables are
set. -/
def deniedWorld : World := modeWorld mockEnv (lit "secret") 0o200

namespace filepath

/-- The part of a path after its last slash. -/
def lastElem (p : GoString) : GoString :=
  ((p.reverse).takeWhile (fun c => c != 0x2F)).reverse

/-- A single path element that `Clean` keeps as it is. -/
def plainName (n : GoString) : Prop := n ≠ [] ∧ 0x2F ∉ n ∧ n ≠ lit "." ∧ n ≠ lit ".."

instance (n : GoString) : Decidable (plainName n) := by
  unfold plainName; infer_instance

end filepath

/-- The path `tokens.save` writes first. -/
def tmpPath (w : World) : GoString := filepath.Join (os.TempDir w) (lit "temp_gotweet")

namespace json

/-- The fuel that suffices for an input of length `n` in each mode. -/
def fuelNeeded : Mode → Nat → Nat
  | .value, n => 2 * n + 1
  | .elems _, n => 2 * n + 2
  | .members _, n => 2 * n + 2

end json

/-- A client whose `PostTweet` always fails. -/
def failingClient : GoString → Values → Unit × Option Error :=
  fun _ _ => ((), some (.errorString "twitter: service unavailable"))

/-! ## Lemmas and theorems -/

theorem isValid_iff (t : tokens) :
    t.isValid = true ↔
      t.ConsumerKey ≠ [] ∧ t.ConsumerSecret ≠ [] ∧ t.AccessToken ≠ [] ∧
        t.AccessTokenSecret ≠ [] := by
  simp [tokens.isValid, not_or, and_assoc]

theorem getTokens_of_regular (w : World) (path b : GoString)
    (hfile : w.fs path = .regular b) :
    getTokens w path =
      match json.Unmarshal b none with
      | (_, some err) => .done (none, some err)
      | (t, none) =>
        match isValidVia t with
        | .panic msg => .panic msg
        | .done valid =>
          if !valid then .done (none, some (fmt.Errorf "could not retrieve all tokens from disk"))
          else .done (t, none) := by
  simp [getTokens, os.Open, hfile, ioutil.ReadAll]

theorem getTokens_env_branch (w : World) (path : GoString)
    (h : w.fs path = .absent ∨ w.fs path = .openFails ENOENT) :
    getTokens w path =
      if (envTokens w).isValid then .done (some (envTokens w), none)
      else .done (none, some (fmt.Errorf "could not retrieve tokens from environment")) := by
  rcases h with h | h <;>
  · simp only [getTokens, os.Open, h, os.IsNotExist, getTokensFromEnvironment, isValidVia,
      os.Getenv, envTokens, beq_self_eq_true, if_true]
    split <;> simp_all

theorem getTokens_of_openFails (w : World) (path : GoString) (e : Errno)
    (h : w.fs path = .openFails e) (hne : e ≠ ENOENT) :
    getTokens w path = .done (none, some (.PathError "open" path e)) := by
  simp [getTokens, os.Open, h, os.IsNotExist, hne]

theorem getTokens_of_readFails (w : World) (path : GoString) (e : Errno)
    (h : w.fs path = .readFails e) :
    getTokens w path = .done (none, some (.PathError "read" path e)) := by
  simp [getTokens, os.Open, h, ioutil.ReadAll]

/-- C1. Whenever `getTokens` returns a bundle with a nil error, all four
fields of the bundle are non-empty, whatever the file system and the
environment are. -/
theorem getTokens_returns_only_valid (w : World) (path : GoString) (t : tokens)
    (h : getTokens w path = .done (some t, none)) :
    t.ConsumerKey ≠ [] ∧ t.ConsumerSecret ≠ [] ∧ t.AccessToken ≠ [] ∧
      t.AccessTokenSecret ≠ [] := by
  rw [← isValid_iff]
  cases hfs : w.fs path with
  | absent =>
    rw [getTokens_env_branch w path (Or.inl hfs)] at h
    split at h
    · simp only [Exec.done.injEq, Prod.mk.injEq, Option.some.injEq, and_true] at h
      rw [← h]; assumption
    · simp at h
  | openFails e =>
    by_cases he : e = ENOENT
    · subst he
      rw [getTokens_env_branch w path (Or.inr hfs)] at h
      split at h
      · simp only [Exec.done.injEq, Prod.mk.injEq, Option.some.injEq, and_true] at h
        rw [← h]; assumption
      · simp at h
    · rw [getTokens_of_openFails w path e hfs he] at h
      simp at h
  | readFails e =>
    rw [getTokens_of_readFails w path e hfs] at h
    simp at h
  | regular b =>
    rw [getTokens_of_regular w path b hfs] at h
    split at h
    · simp at h
    · rename_i t0 _
      cases t0 with
      | none => simp [isValidVia] at h
      | some v =>
        simp only [isValidVia] at h
        by_cases hv : v.isValid = true
        · simp only [hv, Bool.not_true, Bool.false_eq_true, if_false, Exec.done.injEq,
            Prod.mk.injEq, Option.some.injEq, and_true] at h
          rw [← h]; exact hv
        · simp [hv] at h

/-- C1, at the file of the test `mockTokensFile`: the bundle `getTokens`
returns has four non-empty fields. -/
theorem getTokens_returns_only_valid_witness :
    (getTokens (fileWorld mockEnv (json.Marshal mockTokens).1) mockPath
        = .done (some mockTokens, none) ∧
      mockTokens.ConsumerKey ≠ [] ∧ mockTokens.ConsumerSecret ≠ [] ∧
      mockTokens.AccessToken ≠ [] ∧ mockTokens.AccessTokenSecret ≠ []) :=
  ⟨by decide, getTokens_returns_only_valid (fileWorld mockEnv (json.Marshal mockTokens).1)
    mockPath mockTokens (by decide)⟩

/-- C3. When the credential file exists and decodes without error to a bundle
with at least one empty field, `getTokens` returns no bundle and the error
whose text is "could not retrieve all tokens from disk", for every environment
`env`; the environment is never consulted. -/
theorem getTokens_incomplete_file_fails (w : World) (env : String → GoString)
    (path b : GoString) (t : tokens)
    (hfile : w.fs path = .regular b)
    (hdec : json.Unmarshal b none = (some t, none))
    (hempty : t.ConsumerKey = [] ∨ t.ConsumerSecret = [] ∨ t.AccessToken = [] ∨
      t.AccessTokenSecret = []) :
    getTokens { w with env := env } path
        = .done (none, some (fmt.Errorf "could not retrieve all tokens from disk")) ∧
      ∀ tx, (fmt.Errorf "could not retrieve all tokens from disk").Error tx
        = lit "could not retrieve all tokens from disk" := by
  have hinv : t.isValid ≠ true := by
    intro hv0
    have hv := (isValid_iff t).1 hv0
    rcases hempty with h | h | h | h
    · exact hv.1 h
    · exact hv.2.1 h
    · exact hv.2.2.1 h
    · exact hv.2.2.2 h
  refine ⟨?_, fun tx => rfl⟩
  rw [getTokens_of_regular { w with env := env } path b hfile, hdec]
  simp [isValidVia, hinv]

/-- C3, at the file of the test `mockTokensFile_Corrupted` and an environment in
which all four variables are set. -/
theorem getTokens_incomplete_file_fails_witness :
    getTokens { fileWorld (fun _ => []) (json.Marshal corruptedTokens).1 with env := mockEnv }
        mockPath
      = .done (none, some (fmt.Errorf "could not retrieve all tokens from disk")) :=
  (getTokens_incomplete_file_fails (fileWorld (fun _ => []) (json.Marshal corruptedTokens).1)
    mockEnv mockPath (json.Marshal corruptedTokens).1 corruptedTokens
    (by decide) (by decide) (by decide)).1

/-- C4. When the credential file decodes without error to a bundle `t` with
four non-empty fields, `getTokens` returns exactly `t` under every two
environments `e1` and `e2`. -/
theorem getTokens_complete_file_ignores_env (w : World) (e1 e2 : String → GoString)
    (path b : GoString) (t : tokens)
    (hfile : w.fs path = .regular b)
    (hdec : json.Unmarshal b none = (some t, none))
    (hfull : t.ConsumerKey ≠ [] ∧ t.ConsumerSecret ≠ [] ∧ t.AccessToken ≠ [] ∧
      t.AccessTokenSecret ≠ []) :
    getTokens { w with env := e1 } path = .done (some t, none) ∧
      getTokens { w with env := e2 } path = .done (some t, none) := by
  have hv : t.isValid = true := (isValid_iff t).2 hfull
  constructor
  · rw [getTokens_of_regular { w with env := e1 } path b hfile, hdec]
    simp [isValidVia, hv]
  · rw [getTokens_of_regular { w with env := e2 } path b hfile, hdec]
    simp [isValidVia, hv]

/-- C4, at the file of the test `mockTokensFile`, under an empty environment
and under one with all four variables set. -/
theorem getTokens_complete_file_ignores_env_witness :
    getTokens { fileWorld (fun _ => []) (json.Marshal mockTokens).1 with env := fun _ => [] }
        mockPath = .done (some mockTokens, none) ∧
      getTokens { fileWorld (fun _ => []) (json.Marshal mockTokens).1 with env := mockEnv }
        mockPath = .done (some mockTokens, none) :=
  getTokens_complete_file_ignores_env (fileWorld (fun _ => []) (json.Marshal mockTokens).1)
    (fun _ => []) mockEnv mockPath (json.Marshal mockTokens).1 mockTokens
    (by decide) (by decide) (by decide)

/-- C5. When the credential file does not exist and at least one of the four
variables is unset or empty, `getTokens` returns no bundle and the error whose
text is "could not retrieve tokens from environment". -/
theorem getTokens_no_file_incomplete_env_fails (w : World) (path : GoString)
    (habs : w.fs path = .absent)
    (hempty : os.Getenv w "TWITTER_CONSUMER_KEY" = [] ∨
      os.Getenv w "TWITTER_CONSUMER_SECRET" = [] ∨
      os.Getenv w "TWITTER_ACCESS_TOKEN" = [] ∨
      os.Getenv w "TWITTER_ACCESS_TOKEN_SECRET" = []) :
    getTokens w path
        = .done (none, some (fmt.Errorf "could not retrieve tokens from environment")) ∧
      ∀ tx, (fmt.Errorf "could not retrieve tokens from environment").Error tx
        = lit "could not retrieve tokens from environment" := by
  have hinv : (envTokens w).isValid ≠ true := by
    intro hv0
    have hv := (isValid_iff _).1 hv0
    simp only [envTokens] at hv
    simp only [os.Getenv] at hempty
    rcases hempty with h | h | h | h
    · exact hv.1 h
    · exact hv.2.1 h
    · exact hv.2.2.1 h
    · exact hv.2.2.2 h
  refine ⟨?_, fun tx => rfl⟩
  rw [getTokens_env_branch w path (Or.inl habs)]
  simp [hinv]

/-- C5, in the first situation of the test `TestGetTokens`: no file and no
variable set. -/
theorem getTokens_no_file_incomplete_env_fails_witness :
    getTokens emptyWorld mockPath
      = .done (none, some (fmt.Errorf "could not retrieve tokens from environment")) :=
  (getTokens_no_file_incomplete_env_fails emptyWorld mockPath (by decide) (by decide)).1

/-- C6. When the credential file does not exist and all four variables are
non-empty, `getTokens` returns the bundle whose `ConsumerKey`,
`ConsumerSecret`, `AccessToken` and `AccessTokenSecret` are the values of
`TWITTER_CONSUMER_KEY`, `TWITTER_CONSUMER_SECRET`, `TWITTER_ACCESS_TOKEN` and
`TWITTER_ACCESS_TOKEN_SECRET`, in this order. -/
theorem getTokens_no_file_full_env (w : World) (path : GoString)
    (habs : w.fs path = .absent)
    (h1 : os.Getenv w "TWITTER_CONSUMER_KEY" ≠ [])
    (h2 : os.Getenv w "TWITTER_CONSUMER_SECRET" ≠ [])
    (h3 : os.Getenv w "TWITTER_ACCESS_TOKEN" ≠ [])
    (h4 : os.Getenv w "TWITTER_ACCESS_TOKEN_SECRET" ≠ []) :
    getTokens w path = .done (some {
      ConsumerKey := os.Getenv w "TWITTER_CONSUMER_KEY",
      ConsumerSecret := os.Getenv w "TWITTER_CONSUMER_SECRET",
      AccessToken := os.Getenv w "TWITTER_ACCESS_TOKEN",
      AccessTokenSecret := os.Getenv w "TWITTER_ACCESS_TOKEN_SECRET" }, none) := by
  have hv : (envTokens w).isValid = true := (isValid_iff _).2 ⟨h1, h2, h3, h4⟩
  rw [getTokens_env_branch w path (Or.inl habs), if_pos hv]
  rfl

/-- C6, with four different values, which shows each variable in its own
field. -/
theorem getTokens_no_file_full_env_witness :
    getTokens distinctEnvWorld mockPath
      = .done (some ⟨lit "k", lit "s", lit "a", lit "as"⟩, none) :=
  getTokens_no_file_full_env distinctEnvWorld mockPath (by decide) (by decide) (by decide)
    (by decide) (by decide)

theorem lit_open : lit "open" = [0x6F, 0x70, 0x65, 0x6E] := by decide

theorem lit_read : lit "read" = [0x72, 0x65, 0x61, 0x64] := by decide

theorem lit_env_message :
    lit "could not retrieve tokens from environment"
      = 0x63 :: lit "ould not retrieve tokens from environment" := by decide

theorem lit_disk_message :
    lit "could not retrieve all tokens from disk"
      = 0x63 :: lit "ould not retrieve all tokens from disk" := by decide

/-- C7. When opening the credential file fails with an errno other than
ENOENT, or reading it fails, `getTokens` returns no bundle and the
`PathError` of that failure, for every environment; this error is neither of
the two errors `getTokens` makes itself, as a value and by its text. -/
theorem getTokens_filesystem_error (w : World) (path : GoString) (e : Errno)
    (h : (w.fs path = .openFails e ∧ e ≠ ENOENT) ∨ w.fs path = .readFails e) :
    let err := Error.PathError (if w.fs path = .openFails e then "open" else "read") path e
    getTokens w path = .done (none, some err) ∧
      err ≠ fmt.Errorf "could not retrieve tokens from environment" ∧
      err ≠ fmt.Errorf "could not retrieve all tokens from disk" ∧
      ∀ tx, err.Error tx ≠ lit "could not retrieve tokens from environment" ∧
        err.Error tx ≠ lit "could not retrieve all tokens from disk" := by
  intro err
  refine ⟨?_, by simp [err, fmt.Errorf], by simp [err, fmt.Errorf], fun tx => ?_⟩
  · rcases h with ⟨h, hne⟩ | h
    · simp only [err, h, if_true]
      exact getTokens_of_openFails w path e h hne
    · simp only [err, h, reduceCtorEq, if_false]
      exact getTokens_of_readFails w path e h
  · by_cases hop : w.fs path = .openFails e
    · simp [err, hop, Error.Error, lit_open, lit_env_message, lit_disk_message]
    · simp [err, hop, Error.Error, lit_read, lit_env_message, lit_disk_message]

/-- C7, at a file that cannot be opened for lack of permission, with all four
variables set. -/
theorem getTokens_filesystem_error_witness :
    getTokens deniedWorld mockPath = .done (none, some (.PathError "open" mockPath 13)) :=
  (getTokens_filesystem_error deniedWorld mockPath 13 (Or.inl ⟨by decide, by decide⟩)).1

/-- C9. For every request whose body is read without error, the handler
calls `PostTweet` exactly once, with the whole body as the text and nil
options; it returns exactly when that call reports no error, and exits the
process with status 1 through `log.Fatal` exactly when the call reports an
error. -/
theorem tweetPostHandler_posts_body_once {Tweet : Type}
    (PostTweet : GoString → Values → Tweet × Option Error) (body : GoString) :
    postCalls (tweetPostHandler PostTweet ⟨(body, none)⟩).1 = [(body, none)] ∧
      ((tweetPostHandler PostTweet ⟨(body, none)⟩).2 = .returned ↔
        (PostTweet body none).2 = none) ∧
      (∀ err, (PostTweet body none).2 = some err →
        (tweetPostHandler PostTweet ⟨(body, none)⟩).2 = .exit 1 ∧
          (tweetPostHandler PostTweet ⟨(body, none)⟩).1.getLast? = some (.logFatal err)) := by
  simp only [tweetPostHandler]
  rcases hp : PostTweet body none with ⟨tw, _ | err⟩
  · simp [postCalls]
  · simp [postCalls]

theorem fileWorld_fs (env : String → GoString) (content : GoString) :
    (fileWorld env content).fs mockPath = .regular content := by
  simp [World.fs, World.target, maxLookups, resolve, fileWorld, modeWorld, World.mayRead]

/-- C10, at the failing input: with the JSON literal `null` in the credential
file, `Unmarshal` reports no error and leaves the pointer nil, and `getTokens`
ends in the nil-dereference panic of `t.isValid()` instead of returning, for
every environment. -/
theorem getTokens_null_file_panics (env : String → GoString) :
    json.Unmarshal (lit "null") none = (none, none) ∧
      getTokens (fileWorld env (lit "null")) mockPath
        = .panic "invalid memory address or nil pointer dereference" := by
  refine ⟨by decide, ?_⟩
  rw [getTokens_of_regular (fileWorld env (lit "null")) mockPath (lit "null")
    (fileWorld_fs env (lit "null"))]
  have h : json.Unmarshal (lit "null") none = (none, none) := by decide
  rw [h]
  rfl

namespace filepath

theorem splitSlash_ne_nil (p : GoString) : splitSlash p ≠ [] := by
  cases p with
  | nil => simp [splitSlash]
  | cons b rest =>
    simp only [splitSlash]
    split
    · simp
    · split <;> simp

theorem splitSlash_plain (n : GoString) (hn : 0x2F ∉ n) : splitSlash n = [n] := by
  induction n with
  | nil => rfl
  | cons b rest ih =>
    simp only [List.mem_cons, not_or] at hn
    have hb : b ≠ 0x2F := fun h => hn.1 h.symm
    simp [splitSlash, hb, ih hn.2]

theorem splitSlash_append (a n : GoString) :
    splitSlash (a ++ 0x2F :: n) = splitSlash a ++ splitSlash n := by
  induction a with
  | nil => simp [splitSlash]
  | cons b rest ih =>
    rw [List.cons_append]
    by_cases hb : b = 0x2F
    · simp [splitSlash, hb, ih]
    · rw [splitSlash, if_neg hb, ih, splitSlash, if_neg hb]
      cases hs : splitSlash rest with
      | nil => exact absurd hs (splitSlash_ne_nil rest)
      | cons c cs => simp

theorem joinSlash_snoc (ys : List GoString) (n : GoString) :
    ∃ pre, joinSlash (ys ++ [n]) = pre ++ n ∧ (pre = [] ∨ ∃ q, pre = q ++ [0x2F]) := by
  induction ys with
  | nil => exact ⟨[], by simp [joinSlash], Or.inl rfl⟩
  | cons y rest ih =>
    obtain ⟨pre, hpre, hshape⟩ := ih
    cases hr : rest ++ [n] with
    | nil => simp at hr
    | cons d cs =>
      rw [hr] at hpre
      refine ⟨y ++ 0x2F :: pre, ?_, Or.inr ?_⟩
      · simp [joinSlash, hr, hpre]
      · rcases hshape with h | ⟨q, h⟩
        · exact ⟨y, by simp [h]⟩
        · exact ⟨y ++ 0x2F :: q, by simp [h]⟩

theorem Clean_ends_with (p n : GoString) (xs : List GoString) (hp : p ≠ [])
    (hsplit : splitSlash p = xs ++ [n]) (hn : plainName n) :
    ∃ pre, Clean p = pre ++ n ∧ (pre = [] ∨ ∃ q, pre = q ++ [0x2F]) := by
  cases p with
  | nil => exact absurd rfl hp
  | cons b rest =>
    simp only [Clean, hsplit, List.foldl_append, List.foldl_cons, List.foldl_nil]
    have hstep : ∀ r out, cleanStep r out n = n :: out := by
      intro r out
      simp [cleanStep, hn.1, hn.2.2.1, hn.2.2.2]
    rw [hstep, List.reverse_cons]
    obtain ⟨pre, hpre, hshape⟩ :=
      joinSlash_snoc (List.foldl (cleanStep (decide (b = 0x2F))) [] xs).reverse n
    by_cases hb : b = 0x2F
    · simp only [hb, decide_True, if_true] at hpre ⊢
      rw [hpre]
      refine ⟨0x2F :: pre, by simp, Or.inr ?_⟩
      rcases hshape with h | ⟨q, h⟩
      · exact ⟨[], by simp [h]⟩
      · exact ⟨0x2F :: q, by simp [h]⟩
    · simp only [hb, decide_False, Bool.false_eq_true, if_false] at hpre ⊢
      simp only [List.append_eq_nil, List.cons_ne_self, and_false, if_false, reduceCtorEq]
      exact ⟨pre, hpre, hshape⟩

theorem Join_ends_with (a n : GoString) (hn : plainName n) :
    ∃ pre, Join a n = pre ++ n ∧ (pre = [] ∨ ∃ q, pre = q ++ [0x2F]) := by
  unfold Join
  by_cases ha : a = []
  · simp only [ha, ne_eq, not_true_eq_false, if_false, hn.1, not_false_eq_true, if_true]
    exact Clean_ends_with n n [] hn.1 (by simp [splitSlash_plain n hn.2.1]) hn
  · simp only [ne_eq, ha, not_false_eq_true, if_true]
    exact Clean_ends_with (a ++ 0x2F :: n) n (splitSlash a) (by simp)
      (by rw [splitSlash_append, splitSlash_plain n hn.2.1]) hn

theorem lastElem_of_ends_with (pre n : GoString) (hn : 0x2F ∉ n)
    (hshape : pre = [] ∨ ∃ q, pre = q ++ [0x2F]) : lastElem (pre ++ n) = n := by
  have htw : ∀ (l t : GoString), 0x2F ∉ l → (t = [] ∨ ∃ t1, t = 0x2F :: t1) →
      (l ++ t).takeWhile (fun c => c != 0x2F) = l := by
    intro l t hl ht
    induction l with
    | nil =>
      rcases ht with h | ⟨t1, h⟩ <;> simp [h]
    | cons c l ih =>
      simp only [List.mem_cons, not_or] at hl
      have hc : c ≠ 0x2F := fun h => hl.1 h.symm
      have hc2 : (c != 0x2F) = true := by simpa using hc
      rw [List.cons_append, List.takeWhile_cons, hc2, if_pos rfl, ih hl.2]
  unfold lastElem
  rw [List.reverse_append, htw]
  · simp
  · simpa using hn
  · rcases hshape with h | ⟨q, h⟩
    · exact Or.inl (by simp [h])
    · exact Or.inr ⟨q.reverse, by simp [h]⟩

theorem lastElem_Join (a n : GoString) (hn : plainName n) : lastElem (Join a n) = n := by
  obtain ⟨pre, hpre, hshape⟩ := Join_ends_with a n hn
  rw [hpre]
  exact lastElem_of_ends_with pre n hn.2.1 hshape

end filepath

theorem gotweetPath_ne_tmpPath (w : World) : gotweetPath w ≠ tmpPath w := by
  intro h
  have h1 : filepath.lastElem (gotweetPath w) = settingsFile :=
    filepath.lastElem_Join _ _ (by decide)
  have h2 : filepath.lastElem (tmpPath w) = lit "temp_gotweet" :=
    filepath.lastElem_Join _ _ (by decide)
  rw [h, h2] at h1
  exact absurd h1 (by decide)

namespace utf8

end utf8

namespace json

theorem scanFrom_zero_cons (c : Nat) (rest : GoString) :
    scanFrom 0 (c :: rest) =
      match scanStep (c :: rest) with
      | .close => some ([], rest)
      | .error => none
      | .emit bytes consumed => emit bytes (scanFrom (consumed - 1) rest) := rfl

theorem parse_value_unfold (fuel depth : Nat) (s : GoString) :
    parse (fuel + 1) depth .value s =
      match skipSpace s with
      | [] => none
      | c :: r =>
        if c = 0x7B then
          if maxNestingDepth ≤ depth then none
          else
            match skipSpace r with
            | [] => none
            | d :: r1 =>
              if d = 0x7D then some (.object [], r1)
              else parse fuel (depth + 1) (.members []) (d :: r1)
        else if c = 0x5B then
          if maxNestingDepth ≤ depth then none
          else
            match skipSpace r with
            | [] => none
            | d :: r1 =>
              if d = 0x5D then some (.array [], r1)
              else parse fuel (depth + 1) (.elems []) (d :: r1)
        else if c = 0x22 then
          match scanString r with
          | some (str, r1) => some (.string str, r1)
          | none => none
        else if c = 0x74 then
          match r with
          | 0x72 :: 0x75 :: 0x65 :: r1 => some (.bool true, r1)
          | _ => none
        else if c = 0x66 then
          match r with
          | 0x61 :: 0x6C :: 0x73 :: 0x65 :: r1 => some (.bool false, r1)
          | _ => none
        else if c = 0x6E then
          match r with
          | 0x75 :: 0x6C :: 0x6C :: r1 => some (.null, r1)
          | _ => none
        else
          match scanNumber (c :: r) with
          | some r1 => some (.number, r1)
          | none => none := rfl

theorem parse_members_unfold (fuel depth : Nat) (acc : List (GoString × Value)) (s : GoString) :
    parse (fuel + 1) depth (.members acc) s =
      match skipSpace s with
      | [] => none
      | q :: r =>
        if q = 0x22 then
          match scanString r with
          | none => none
          | some (key, r1) =>
            match skipSpace r1 with
            | [] => none
            | colon :: r2 =>
              if colon = 0x3A then
                match parse fuel depth .value r2 with
                | none => none
                | some (v, r3) =>
                  match skipSpace r3 with
                  | [] => none
                  | c :: r4 =>
                    if c = 0x2C then parse fuel depth (.members (acc ++ [(key, v)])) r4
                    else if c = 0x7D then some (.object (acc ++ [(key, v)]), r4)
                    else none
              else none
        else none := rfl

theorem parse_elems_unfold (fuel depth : Nat) (acc : List Value) (s : GoString) :
    parse (fuel + 1) depth (.elems acc) s =
      match parse fuel depth .value s with
      | none => none
      | some (v, r) =>
        match skipSpace r with
        | [] => none
        | c :: r1 =>
          if c = 0x2C then parse fuel depth (.elems (acc ++ [v])) r1
          else if c = 0x5D then some (.array (acc ++ [v]), r1)
          else none := rfl

theorem skipSpace_length_le (s : GoString) : (skipSpace s).length ≤ s.length := by
  induction s with
  | nil => simp [skipSpace]
  | cons c rest ih =>
    simp only [skipSpace]
    split
    · simp only [List.length_cons]; omega
    · exact Nat.le_refl _

theorem skipDigits_length_le (s : GoString) : (skipDigits s).length ≤ s.length := by
  induction s with
  | nil => simp [skipDigits]
  | cons c rest ih =>
    simp only [skipDigits]
    split
    · simp only [List.length_cons]; omega
    · exact Nat.le_refl _

theorem emit_eq_some (bs : GoString) (r : Option (GoString × GoString)) (x rest : GoString)
    (h : emit bs r = some (x, rest)) : ∃ y, r = some (y, rest) := by
  cases r with
  | none => simp [emit] at h
  | some p =>
    obtain ⟨y, r0⟩ := p
    simp only [emit, Option.some.injEq, Prod.mk.injEq] at h
    exact ⟨y, by rw [h.2]⟩

theorem scanFrom_shorter (s : GoString) :
    ∀ (k : Nat) (x r : GoString), scanFrom k s = some (x, r) → r.length + k < s.length := by
  induction s with
  | nil => intro k x r h; cases k <;> simp [scanFrom] at h
  | cons c rest ih =>
    intro k x r h
    cases k with
    | zero =>
      rw [scanFrom_zero_cons] at h
      split at h
      · simp only [Option.some.injEq, Prod.mk.injEq] at h
        rw [← h.2]; simp
      · simp at h
      · obtain ⟨y, hy⟩ := emit_eq_some _ _ _ _ h
        have := ih _ y r hy
        simp only [List.length_cons]; omega
    | succ k =>
      have h2 : scanFrom k rest = some (x, r) := h
      have := ih k x r h2
      simp only [List.length_cons]; omega

theorem scanString_shorter (s x r : GoString) (h : scanString s = some (x, r)) :
    r.length < s.length := by
  have := scanFrom_shorter s 0 x r h
  omega

theorem scanExponent_length_le (s r : GoString) (h : scanExponent s = some r) :
    r.length ≤ s.length := by
  unfold scanExponent at h
  split at h
  · split_ifs at h with h1
    · split at h
      · split_ifs at h
        all_goals simp only [Option.some.injEq, reduceCtorEq] at h
        · have := skipDigits_length_le ‹GoString›
          rw [← h]; simp only [List.length_cons]; omega
        · rename_i d rest1 _ _
          have := skipDigits_length_le (d :: rest1)
          rw [← h]; simp only [List.length_cons] at this ⊢; omega
      · split_ifs at h
        simp only [Option.some.injEq, reduceCtorEq] at h
        rw [← h]; simp
      · simp at h
    · simp only [Option.some.injEq] at h; rw [← h]
  · simp only [Option.some.injEq] at h; rw [← h]

theorem scanFraction_length_le (s r : GoString) (h : scanFraction s = some r) :
    r.length ≤ s.length := by
  unfold scanFraction at h
  split at h
  · split_ifs at h with h1
    · split at h
      · rename_i d rest1
        have h2 := skipDigits_length_le rest1
        split_ifs at h
        have h1 := scanExponent_length_le _ _ h
        simp only [List.length_cons]; omega
      · simp at h
    · exact scanExponent_length_le _ _ h
  · simp only [Option.some.injEq] at h; rw [← h]

theorem scanNumber_shorter (s r : GoString) (h : scanNumber s = some r) :
    r.length < s.length := by
  unfold scanNumber at h
  have key : ∀ s1 : GoString,
      (match s1 with
        | d :: rest =>
          if d = 0x30 then scanFraction rest
          else if isDigit d then scanFraction (skipDigits rest)
          else none
        | [] => none) = some r → r.length < s1.length := by
    intro s1 h1
    split at h1
    · rename_i d rest
      have := skipDigits_length_le rest
      split_ifs at h1 <;>
      · have := scanFraction_length_le _ _ h1
        simp only [List.length_cons]; omega
    · simp at h1
  have := key _ h
  split at this
  · split_ifs at this
    · simp only [List.length_cons]; omega
    · exact this
  · exact this

/-- Every successful call of the parser consumes input. -/
theorem parse_shorter (f : Nat) :
    ∀ (d : Nat) (m : Mode) (s : GoString) (v : Value) (r : GoString),
      parse f d m s = some (v, r) → r.length < s.length := by
  induction f with
  | zero => intro d m s v r h; simp [parse] at h
  | succ f ih =>
    intro d m s v r h
    have hlen := skipSpace_length_le s
    cases m with
    | value =>
      rw [parse_value_unfold] at h
      cases hsk : skipSpace s with
      | nil => rw [hsk] at h; simp at h
      | cons c r0 =>
        rw [hsk] at h hlen
        simp only [List.length_cons] at hlen
        simp only at h
        have hlen0 := skipSpace_length_le r0
        split_ifs at h with h1 h2 h3 h4 h5 h6 h7 h8
        · cases hsk0 : skipSpace r0 with
          | nil => rw [hsk0] at h; simp at h
          | cons c1 r1 =>
            rw [hsk0] at h hlen0
            simp only [List.length_cons] at hlen0
            simp only at h
            split_ifs at h with h10
            · simp only [Option.some.injEq, Prod.mk.injEq] at h
              rw [← h.2]; omega
            · have := ih _ _ _ _ _ h
              simp only [List.length_cons] at this; omega
        · cases hsk0 : skipSpace r0 with
          | nil => rw [hsk0] at h; simp at h
          | cons c1 r1 =>
            rw [hsk0] at h hlen0
            simp only [List.length_cons] at hlen0
            simp only at h
            split_ifs at h with h10
            · simp only [Option.some.injEq, Prod.mk.injEq] at h
              rw [← h.2]; omega
            · have := ih _ _ _ _ _ h
              simp only [List.length_cons] at this; omega
        · cases hss : scanString r0 with
          | none => rw [hss] at h; simp at h
          | some p =>
            obtain ⟨str, r1⟩ := p
            rw [hss] at h
            simp only [Option.some.injEq, Prod.mk.injEq] at h
            have := scanString_shorter _ _ _ hss
            rw [← h.2]; omega
        · split at h
          · simp only [Option.some.injEq, Prod.mk.injEq] at h
            rw [← h.2]; simp only [List.length_cons] at hlen ⊢; omega
          · simp at h
        · split at h
          · simp only [Option.some.injEq, Prod.mk.injEq] at h
            rw [← h.2]; simp only [List.length_cons] at hlen ⊢; omega
          · simp at h
        · split at h
          · simp only [Option.some.injEq, Prod.mk.injEq] at h
            rw [← h.2]; simp only [List.length_cons] at hlen ⊢; omega
          · simp at h
        · cases hn : scanNumber (c :: r0) with
          | none => rw [hn] at h; simp at h
          | some r1 =>
            rw [hn] at h
            simp only [Option.some.injEq, Prod.mk.injEq] at h
            have := scanNumber_shorter _ _ hn
            simp only [List.length_cons] at this
            rw [← h.2]; omega
    | elems acc =>
      rw [parse_elems_unfold] at h
      cases hp : parse f d .value s with
      | none => rw [hp] at h; simp at h
      | some p =>
        obtain ⟨v1, r1⟩ := p
        rw [hp] at h
        simp only at h
        have h1 := ih _ _ _ _ _ hp
        have hlen1 := skipSpace_length_le r1
        cases hsk : skipSpace r1 with
        | nil => rw [hsk] at h; simp at h
        | cons c r2 =>
          rw [hsk] at h hlen1
          simp only [List.length_cons] at hlen1
          simp only at h
          split_ifs at h with h2 h3
          · have := ih _ _ _ _ _ h; omega
          · simp only [Option.some.injEq, Prod.mk.injEq] at h
            rw [← h.2]; omega
    | members acc =>
      rw [parse_members_unfold] at h
      cases hsk : skipSpace s with
      | nil => rw [hsk] at h; simp at h
      | cons q r0 =>
        rw [hsk] at h hlen
        simp only [List.length_cons] at hlen
        simp only at h
        split_ifs at h with hq
        cases hss : scanString r0 with
        | none => rw [hss] at h; simp at h
        | some p =>
          obtain ⟨key, r1⟩ := p
          rw [hss] at h
          simp only at h
          have hs1 := scanString_shorter _ _ _ hss
          have hlen1 := skipSpace_length_le r1
          cases hsk1 : skipSpace r1 with
          | nil => rw [hsk1] at h; simp at h
          | cons colon r2 =>
            rw [hsk1] at h hlen1
            simp only [List.length_cons] at hlen1
            simp only at h
            split_ifs at h with hc
            cases hp : parse f d .value r2 with
            | none => rw [hp] at h; simp at h
            | some p =>
              obtain ⟨v1, r3⟩ := p
              rw [hp] at h
              simp only at h
              have h3 := ih _ _ _ _ _ hp
              have hlen3 := skipSpace_length_le r3
              cases hsk3 : skipSpace r3 with
              | nil => rw [hsk3] at h; simp at h
              | cons c r4 =>
                rw [hsk3] at h hlen3
                simp only [List.length_cons] at hlen3
                simp only at h
                split_ifs at h with h4 h5
                · have := ih _ _ _ _ _ h; omega
                · simp only [Option.some.injEq, Prod.mk.injEq] at h
                  rw [← h.2]; omega

/-- With enough fuel the result of the parser does not depend on the fuel. -/
theorem parse_fuel_stable (f1 : Nat) :
    ∀ (f2 d : Nat) (m : Mode) (s : GoString),
      fuelNeeded m s.length ≤ f1 → fuelNeeded m s.length ≤ f2 →
        parse f1 d m s = parse f2 d m s := by
  induction f1 with
  | zero => intro f2 d m s h1 _; cases m <;> simp [fuelNeeded] at h1
  | succ a ih =>
    intro f2 d m s h1 h2
    cases f2 with
    | zero => cases m <;> simp [fuelNeeded] at h2
    | succ b =>
      have hlen := skipSpace_length_le s
      cases m with
      | value =>
        simp only [fuelNeeded] at h1 h2
        rw [parse_value_unfold, parse_value_unfold]
        cases hsk : skipSpace s with
        | nil => rfl
        | cons c r0 =>
          rw [hsk] at hlen
          simp only [List.length_cons] at hlen
          have hlen0 := skipSpace_length_le r0
          dsimp only
          cases hsk0 : skipSpace r0 with
          | nil => rfl
          | cons c1 r1 =>
            rw [hsk0] at hlen0
            simp only [List.length_cons] at hlen0
            have e1 := ih b (d + 1) (.members []) (c1 :: r1)
              (by simp only [fuelNeeded, List.length_cons]; omega)
              (by simp only [fuelNeeded, List.length_cons]; omega)
            have e2 := ih b (d + 1) (.elems []) (c1 :: r1)
              (by simp only [fuelNeeded, List.length_cons]; omega)
              (by simp only [fuelNeeded, List.length_cons]; omega)
            dsimp only
            rw [e1, e2]
      | elems acc =>
        simp only [fuelNeeded] at h1 h2
        rw [parse_elems_unfold, parse_elems_unfold]
        rw [ih b d .value s (by simp only [fuelNeeded]; omega) (by simp only [fuelNeeded]; omega)]
        cases hp : parse b d .value s with
        | none => rfl
        | some p =>
          obtain ⟨v1, r1⟩ := p
          have hs1 := parse_shorter _ _ _ _ _ _ hp
          have hlen1 := skipSpace_length_le r1
          dsimp only
          cases hsk : skipSpace r1 with
          | nil => rfl
          | cons c r2 =>
            rw [hsk] at hlen1
            simp only [List.length_cons] at hlen1
            have e1 := ih b d (.elems (acc ++ [v1])) r2
              (by simp only [fuelNeeded]; omega) (by simp only [fuelNeeded]; omega)
            dsimp only
            rw [e1]
      | members acc =>
        simp only [fuelNeeded] at h1 h2
        rw [parse_members_unfold, parse_members_unfold]
        cases hsk : skipSpace s with
        | nil => rfl
        | cons q r0 =>
          rw [hsk] at hlen
          simp only [List.length_cons] at hlen
          dsimp only
          cases hss : scanString r0 with
          | none => rfl
          | some p =>
            obtain ⟨key, r1⟩ := p
            have hs1 := scanString_shorter _ _ _ hss
            have hlen1 := skipSpace_length_le r1
            dsimp only
            cases hsk1 : skipSpace r1 with
            | nil => rfl
            | cons colon r2 =>
              rw [hsk1] at hlen1
              simp only [List.length_cons] at hlen1
              have e1 := ih b d .value r2
                (by simp only [fuelNeeded]; omega) (by simp only [fuelNeeded]; omega)
              dsimp only
              rw [e1]
              cases hp : parse b d .value r2 with
              | none => rfl
              | some p =>
                obtain ⟨v1, r3⟩ := p
                have hs3 := parse_shorter _ _ _ _ _ _ hp
                have hlen3 := skipSpace_length_le r3
                dsimp only
                cases hsk3 : skipSpace r3 with
                | nil => rfl
                | cons c r4 =>
                  rw [hsk3] at hlen3
                  simp only [List.length_cons] at hlen3
                  have e2 := ih b d (.members (acc ++ [(key, v1)])) r4
                    (by simp only [fuelNeeded]; omega) (by simp only [fuelNeeded]; omega)
                  dsimp only
                  rw [e2]

/-- The fuel of `parseDocument` is enough: more fuel gives the same value, so
`none` is a syntax error of the input and never a lack of fuel. -/
theorem parseDocument_fuel_enough (data : GoString) (k : Nat) :
    parse (2 * data.length + 2 + k) 0 .value data = parse (2 * data.length + 2) 0 .value data :=
  parse_fuel_stable _ _ 0 .value data (by simp only [fuelNeeded]; omega)
    (by simp only [fuelNeeded]; omega)

end json

theorem resolve_succ (names : GoString → Name) (k : Nat) (p : GoString) :
    resolve names (k + 1) p =
      match names p with
      | .absent => .missing p
      | .fails e => .error e
      | .file i => .inode i
      | .symlink t => resolve names k t := rfl

theorem target_eq (w : World) (p : GoString) : w.target p = resolve w.names (40 + 1) p := rfl

/-- The two paths lead to different files in the ordinary states: the
temporary path holds nothing and the credential path is not a symbolic
link. -/
theorem sameFile_false_of_fresh (w : World) (h1 : w.names (tmpPath w) = .absent)
    (h2 : ∀ T, w.names (gotweetPath w) ≠ .symlink T) :
    w.sameFile (tmpPath w) (gotweetPath w) = false := by
  have ht : w.target (tmpPath w) = .missing (tmpPath w) := by
    rw [target_eq, resolve_succ, h1]
  unfold World.sameFile
  rw [ht, target_eq, resolve_succ]
  cases hg : w.names (gotweetPath w) with
  | absent => simpa using fun h => gotweetPath_ne_tmpPath w h.symm
  | fails e => rfl
  | file i => rfl
  | symlink T => exact absurd hg (h2 T)

/-- C9, at a client that always fails: the handler exits with status 1. -/
theorem tweetPostHandler_posts_body_once_witness :
    (tweetPostHandler failingClient ⟨(lit "hello", none)⟩).2 = .exit 1 :=
  ((tweetPostHandler_posts_body_once failingClient (lit "hello")).2.2
    (.errorString "twitter: service unavailable") rfl).1

end GoTweet
